import Mathlib

/-!
Shallow embedding of the pyvim document/view engine core
(`pyvim/buffer.py`, `pyvim/undo.py`, `pyvim/search.py`, `pyvim/window.py`,
`pyvim/visual.py`), together with theorems settling the specification
claims about it.

Python strings are modelled as `List Char`; a Python slice `s[i:j]` is
`(s.take j).drop i` (both clamp out-of-range indices, exactly as Python
slices do).  Machine integers are `Nat`/`Int` as in the source (Python
integers are unbounded).
-/

namespace PyVim

/-- A line of text: a Python `str` modelled as the list of its characters. -/
abbrev Line := List Char

/-- Python slice `s[i:j]` for `0 ≤ i, j`: take the first `j` characters,
then drop the first `i` of those.  Clamps exactly like Python slicing. -/
def pySlice (s : Line) (i j : Nat) : Line := (s.take j).drop i

/-- Python slice `s[i:]`. -/
def pySliceFrom (s : Line) (i : Nat) : Line := s.drop i

/-- Python slice `s[:j]`. -/
def pySliceTo (s : Line) (j : Nat) : Line := s.take j

/-- The mutable state of `Buffer` (`pyvim/buffer.py`) that the claims are
about: line storage, cursor, modified flag and detected line ending.
Scroll offsets, marks, the jump list and file metadata are carried by the
Python object but are untouched by the operations modelled here. -/
structure Buffer where
  lines : List Line
  cursor_x : Nat
  cursor_y : Nat
  modified : Bool
  line_ending : Line
deriving Repr, DecidableEq

/-- `Buffer.__init__`: one empty line, cursor at the origin. -/
def Buffer.init : Buffer :=
  { lines := [[]], cursor_x := 0, cursor_y := 0, modified := false,
    line_ending := ['\n'] }

/-- The line under the cursor, `self.lines[self.cursor_y]`
(defaulting to the empty line when the index is out of range;
the validity invariant keeps it in range). -/
def Buffer.curLine (b : Buffer) : Line := b.lines.getD b.cursor_y []

/-- The bounds invariant of the spec: `lines` is non-empty (positive
length), `0 ≤ cursor_y < len(lines)` and
`0 ≤ cursor_x ≤ len(lines[cursor_y])`. -/
def Buffer.Valid (b : Buffer) : Prop :=
  0 < b.lines.length ∧ b.cursor_y < b.lines.length ∧ b.cursor_x ≤ b.curLine.length

instance (b : Buffer) : Decidable b.Valid := by
  unfold Buffer.Valid; infer_instance

/-- `Buffer.validate_cursor` (buffer.py:250-261): restore one empty line if
`lines` is empty, then clamp the cursor into bounds. -/
def Buffer.validate_cursor (b : Buffer) : Buffer :=
  let lines := if b.lines = [] then [([] : Line)] else b.lines
  let cy := min b.cursor_y (lines.length - 1)
  let cx := min b.cursor_x (lines.getD cy []).length
  { b with lines := lines, cursor_y := cy, cursor_x := cx }

/-- Content/cursor effect of `Buffer.insert_char` (buffer.py:94-102),
after the `save_state` call: splice the character at the cursor column and
advance the column. -/
def Buffer.insert_char_raw (b : Buffer) (c : Char) : Buffer :=
  let line := b.curLine
  { b with
    lines := b.lines.set b.cursor_y
      (pySliceTo line b.cursor_x ++ [c] ++ pySliceFrom line b.cursor_x),
    cursor_x := b.cursor_x + 1,
    modified := true }

/-- Content/cursor effect of `Buffer.delete_char` (buffer.py:104-120),
after the `save_state` call: backspace.  At column > 0 remove the character
to the left; at column 0 on row > 0 merge the row into the previous one. -/
def Buffer.delete_char_raw (b : Buffer) : Buffer :=
  if b.cursor_x > 0 then
    let line := b.curLine
    { b with
      lines := b.lines.set b.cursor_y
        (pySliceTo line (b.cursor_x - 1) ++ pySliceFrom line b.cursor_x),
      cursor_x := b.cursor_x - 1,
      modified := true }
  else if b.cursor_y > 0 then
    let prev := b.lines.getD (b.cursor_y - 1) []
    let cur := b.curLine
    { b with
      lines := (b.lines.set (b.cursor_y - 1) (prev ++ cur)).eraseIdx b.cursor_y,
      cursor_x := prev.length,
      cursor_y := b.cursor_y - 1,
      modified := true }
  else b

/-- Content/cursor effect of `Buffer.delete_char_at_cursor`
(buffer.py:122-136), after the `save_state` call: forward delete.  Before
end of line remove the character at the cursor; at end of a non-last line
merge the next line up. -/
def Buffer.delete_char_at_cursor_raw (b : Buffer) : Buffer :=
  let line := b.curLine
  if b.cursor_x < line.length then
    { b with
      lines := b.lines.set b.cursor_y
        (pySliceTo line b.cursor_x ++ pySliceFrom line (b.cursor_x + 1)),
      modified := true }
  else if b.cursor_y < b.lines.length - 1 then
    let next := b.lines.getD (b.cursor_y + 1) []
    { b with
      lines := (b.lines.set b.cursor_y (line ++ next)).eraseIdx (b.cursor_y + 1),
      modified := true }
  else b

/-- Content/cursor effect of `Buffer.insert_line` (buffer.py:146-155),
after the `save_state` call. -/
def Buffer.insert_line_raw (b : Buffer) (below : Bool) : Buffer :=
  if below then
    { b with lines := b.lines.insertIdx (b.cursor_y + 1) [],
             cursor_y := b.cursor_y + 1, cursor_x := 0, modified := true }
  else
    { b with lines := b.lines.insertIdx b.cursor_y [],
             cursor_x := 0, modified := true }

/-- Content/cursor effect of `Buffer.delete_line` (buffer.py:157-169),
after the `save_state` call. -/
def Buffer.delete_line_raw (b : Buffer) : Buffer :=
  if b.lines.length > 1 then
    let lines1 := b.lines.eraseIdx b.cursor_y
    let cy := if lines1.length ≤ b.cursor_y then lines1.length - 1 else b.cursor_y
    { b with lines := lines1, cursor_y := cy, cursor_x := 0, modified := true }
  else
    { b with lines := b.lines.set 0 [], cursor_x := 0, modified := true }

/-- `Buffer.move_cursor` (buffer.py:171-180): clamp the moved cursor into
bounds; no `save_state`, no `modified`. -/
def Buffer.move_cursor_raw (b : Buffer) (dx dy : Int) : Buffer :=
  let cy := (max 0 (min ((b.cursor_y : Int) + dy) ((b.lines.length : Int) - 1))).toNat
  let lineLength := (b.lines.getD cy []).length
  let cx := (max 0 (min ((b.cursor_x : Int) + dx) (lineLength : Int))).toNat
  { b with cursor_y := cy, cursor_x := cx }

/-- Delete `n` times at index `i`: Python's
`for _ in range(n): del lines[i]`. -/
def eraseNAt (l : List Line) (i : Nat) : Nat → List Line
  | 0 => l
  | n + 1 => eraseNAt (l.eraseIdx i) i n

/-- Content/cursor effect of `Buffer.delete_range` (buffer.py:376-399),
after the `save_state` call. -/
def Buffer.delete_range_raw (b : Buffer) (sy sx ey ex : Nat) : Buffer :=
  let b1 :=
    if sy = ey then
      let line := b.lines.getD sy []
      { b with lines := b.lines.set sy (pySliceTo line sx ++ pySliceFrom line ex) }
    else
      let first := pySliceTo (b.lines.getD sy []) sx
      let last := pySliceFrom (b.lines.getD ey []) ex
      { b with lines := eraseNAt (b.lines.set sy (first ++ last)) (sy + 1) (ey - sy) }
  Buffer.validate_cursor
    { b1 with cursor_y := sy, cursor_x := sx, modified := true }

/-- Line-ending detection shared by `load_file` and `set_content`
(buffer.py:321-327): CRLF if present, else lone CR, else LF. -/
def detectEnding (content : Line) : Line :=
  if (['\r', '\n'] : Line) <:+: content then ['\r', '\n']
  else if '\r' ∈ content then ['\r']
  else ['\n']

/-- Index of the first occurrence of `sep` in `s`, as Python
`str.find` computes it. -/
def findSub (sep : Line) : Line → Option Nat
  | [] => if sep = [] then some 0 else none
  | c :: t => if sep <+: (c :: t) then some 0 else (findSub sep t).map (· + 1)

/-- Python `s.split(sep)` for non-empty `sep`, fuelled by the string
length (ample, since every step consumes at least one character). -/
def splitOnAux (sep : Line) : Nat → Line → List Line
  | 0, s => [s]
  | fuel + 1, s =>
    match findSub sep s with
    | none => [s]
    | some i => pySliceTo s i :: splitOnAux sep fuel (s.drop (i + sep.length))

/-- Python `s.split(sep)` for non-empty `sep`. -/
def splitOn (sep s : Line) : List Line := splitOnAux sep (s.length + 1) s

/-- Content/cursor effect of `Buffer.set_content` (buffer.py:317-333),
after the `save_state` call: detect the line ending, split, reset the
cursor, then `validate_cursor`. -/
def Buffer.set_content_raw (b : Buffer) (content : Line) : Buffer :=
  let ending := detectEnding content
  let lines := if content = [] then [([] : Line)] else splitOn ending content
  Buffer.validate_cursor
    { b with line_ending := ending, lines := lines,
             cursor_x := 0, cursor_y := 0, modified := true }

/-! ## Undo manager (`pyvim/undo.py`) -/

/-- `UndoState` (undo.py:9-16): an immutable snapshot of `lines` and the
cursor.  The wall-clock `timestamp` carries no behaviour and is omitted. -/
structure UndoState where
  lines : List Line
  cursor_x : Nat
  cursor_y : Nat
  description : String
deriving Repr, DecidableEq

/-- `UndoManager.max_undo_levels`, set to 1000 in `__init__` and never
reassigned. -/
def maxUndoLevels : Nat := 1000

/-- A buffer together with its `UndoManager`'s state (undo.py:21-27).
`last_save_index` starts at `-1`, hence `Int`. -/
structure EditorState where
  buf : Buffer
  undo_stack : List UndoState
  redo_stack : List UndoState
  last_save_index : Int
deriving Repr, DecidableEq

/-- A fresh editor: `Buffer.__init__` plus `UndoManager.__init__`. -/
def EditorState.init : EditorState :=
  { buf := Buffer.init, undo_stack := [], redo_stack := [],
    last_save_index := -1 }

/-- Snapshot the live buffer, as both `save_state` and `undo`/`redo` do
(`deepcopy` of `lines` plus the cursor). -/
def snapshot (b : Buffer) (description : String) : UndoState :=
  { lines := b.lines, cursor_x := b.cursor_x, cursor_y := b.cursor_y,
    description := description }

/-- `UndoManager.save_state` (undo.py:29-46): push a snapshot of the
current buffer onto the undo stack, clear the redo stack, and evict the
oldest entry when the stack exceeds `max_undo_levels`. -/
def save_state (s : EditorState) (description : String) : EditorState :=
  let stack := s.undo_stack ++ [snapshot s.buf description]
  let stack := if maxUndoLevels < stack.length then stack.drop 1 else stack
  { s with undo_stack := stack, redo_stack := [] }

/-- `UndoManager.undo` (undo.py:48-68): fail on an empty undo stack;
otherwise push the current state on the redo stack, pop the top undo
snapshot and restore its `lines`/cursor into the buffer. -/
def undo (s : EditorState) : Bool × EditorState :=
  match s.undo_stack.getLast? with
  | none => (false, s)
  | some st =>
    (true,
      { s with
        buf := { s.buf with lines := st.lines, cursor_x := st.cursor_x,
                            cursor_y := st.cursor_y },
        undo_stack := s.undo_stack.dropLast,
        redo_stack := s.redo_stack ++ [snapshot s.buf ""] })

/-- `UndoManager.redo` (undo.py:70-90): the mirror of `undo`. -/
def redo (s : EditorState) : Bool × EditorState :=
  match s.redo_stack.getLast? with
  | none => (false, s)
  | some st =>
    (true,
      { s with
        buf := { s.buf with lines := st.lines, cursor_x := st.cursor_x,
                            cursor_y := st.cursor_y },
        redo_stack := s.redo_stack.dropLast,
        undo_stack := s.undo_stack ++ [snapshot s.buf ""] })

/-- `UndoManager.mark_save_point` (undo.py:92-94):
`last_save_index = len(undo_stack) - 1`. -/
def mark_save_point (s : EditorState) : EditorState :=
  { s with last_save_index := (s.undo_stack.length : Int) - 1 }

/-- Result of evaluating a Python expression: a value, or a raised
`TypeError`. -/
inductive PyResult (α : Type) where
  | ok : α → PyResult α
  | typeError : PyResult α
deriving Repr, DecidableEq

/-- The two shapes of Python value `is_modified` applies `len` to:
the integer field `max_undo_levels` and the list field `undo_stack`. -/
inductive PyVal where
  | int : Int → PyVal
  | list : List UndoState → PyVal

/-- Python `len`: defined on sequences, raises `TypeError` on an integer. -/
def pyLen : PyVal → PyResult Nat
  | .list xs => .ok xs.length
  | .int _ => .typeError

/-- `UndoManager.is_modified` (undo.py:96-99), exactly as written:
`current_index = len(self.max_undo_levels) - 1` — `len` applied to the
*integer* `max_undo_levels` — then compare with `last_save_index`. -/
def is_modified (s : EditorState) : PyResult Bool :=
  match pyLen (.int (maxUndoLevels : Int)) with
  | .typeError => .typeError
  | .ok n => .ok (decide (((n : Int) - 1) ≠ s.last_save_index))

/-- A buffer mutator that calls `save_state` first and then applies a pure
content/cursor transformation to the buffer: the shape shared by every
mutating method of `Buffer` (e.g. `insert_char`, buffer.py:94-102). -/
def mutate (s : EditorState) (description : String) (f : Buffer → Buffer) :
    EditorState :=
  let s1 := save_state s description
  { s1 with buf := f s1.buf }

/-! ## The character-level operation language of claim C1 -/

/-- The buffer operations quantified over by the invariant claim. -/
inductive BufOp where
  | insert_char (c : Char)
  | delete_char
  | delete_char_at_cursor
  | insert_line (below : Bool)
  | delete_line
  | move_cursor (dx dy : Int)
  | delete_range (sy sx ey ex : Nat)
  | set_content (content : Line)
deriving Repr, DecidableEq

/-- Apply one operation as the source does: every mutator calls
`save_state` first (with its description string); `move_cursor` mutates
the cursor directly without touching the undo manager. -/
def applyOp (s : EditorState) : BufOp → EditorState
  | .insert_char c => mutate s "Insert character" (Buffer.insert_char_raw · c)
  | .delete_char => mutate s "Delete character" Buffer.delete_char_raw
  | .delete_char_at_cursor => mutate s "Delete at cursor" Buffer.delete_char_at_cursor_raw
  | .insert_line below => mutate s "Insert line" (Buffer.insert_line_raw · below)
  | .delete_line => mutate s "Delete line" Buffer.delete_line_raw
  | .move_cursor dx dy => { s with buf := s.buf.move_cursor_raw dx dy }
  | .delete_range sy sx ey ex => mutate s "Delete range" (Buffer.delete_range_raw · sy sx ey ex)
  | .set_content content => mutate s "Set content" (Buffer.set_content_raw · content)

/-- Apply a sequence of operations in order. -/
def applyOps (s : EditorState) : List BufOp → EditorState
  | [] => s
  | op :: ops => applyOps (applyOp s op) ops

/-! ## List helper lemmas -/

theorem getD_set_self (l : List Line) (i : Nat) (a d : Line) (h : i < l.length) :
    (l.set i a).getD i d = a := by
  simp [List.getD_eq_getElem?_getD, List.getElem?_set, h]

theorem getD_set_of_ne (l : List Line) (i j : Nat) (a d : Line) (h : i ≠ j) :
    (l.set i a).getD j d = l.getD j d := by
  simp [List.getD_eq_getElem?_getD, List.getElem?_set, h]

theorem getD_eraseIdx_of_lt (l : List Line) (i j : Nat) (d : Line) (h : j < i) :
    (l.eraseIdx i).getD j d = l.getD j d := by
  simp [List.getD_eq_getElem?_getD, List.getElem?_eraseIdx_of_lt _ _ _ h]

theorem length_pySliceTo (s : Line) (j : Nat) :
    (pySliceTo s j).length = min j s.length := by
  simp [pySliceTo]

theorem length_pySliceFrom (s : Line) (i : Nat) :
    (pySliceFrom s i).length = s.length - i := by
  simp [pySliceFrom]

/-! ## Invariant preservation (claim C1) -/

theorem valid_validate_cursor (b : Buffer) : b.validate_cursor.Valid := by
  unfold Buffer.validate_cursor
  by_cases h : b.lines = []
  · refine ⟨?_, ?_, Nat.min_le_right _ _⟩ <;>
      simp only [if_pos h, List.length_cons, List.length_nil] <;> omega
  · have hpos : 0 < b.lines.length := List.length_pos.mpr h
    refine ⟨?_, ?_, Nat.min_le_right _ _⟩ <;> simp only [if_neg h] <;> omega

theorem valid_insert_char (b : Buffer) (c : Char) (h : b.Valid) :
    (b.insert_char_raw c).Valid := by
  obtain ⟨h1, h2, h3⟩ := h
  unfold Buffer.curLine at h3
  unfold Buffer.insert_char_raw Buffer.curLine
  refine ⟨?_, ?_, ?_⟩
  · dsimp only; rw [List.length_set]; omega
  · dsimp only; rw [List.length_set]; omega
  · unfold Buffer.curLine; dsimp only
    rw [getD_set_self _ _ _ _ h2]
    simp only [List.length_append, length_pySliceTo, length_pySliceFrom,
      List.length_cons, List.length_nil]
    omega

theorem valid_delete_char (b : Buffer) (h : b.Valid) :
    b.delete_char_raw.Valid := by
  obtain ⟨h1, h2, h3⟩ := h
  unfold Buffer.curLine at h3
  unfold Buffer.delete_char_raw Buffer.curLine
  by_cases hx : b.cursor_x > 0
  · rw [if_pos hx]
    refine ⟨?_, ?_, ?_⟩
    · dsimp only; rw [List.length_set]; omega
    · dsimp only; rw [List.length_set]; omega
    · unfold Buffer.curLine; dsimp only
      rw [getD_set_self _ _ _ _ h2]
      simp only [List.length_append, length_pySliceTo, length_pySliceFrom]
      omega
  · rw [if_neg hx]
    by_cases hy : b.cursor_y > 0
    · rw [if_pos hy]
      have herase : ((b.lines.set (b.cursor_y - 1)
          (b.lines.getD (b.cursor_y - 1) [] ++ b.lines.getD b.cursor_y [])).eraseIdx
            b.cursor_y).length = b.lines.length - 1 := by
        rw [List.length_eraseIdx_of_lt (by rw [List.length_set]; omega), List.length_set]
      refine ⟨?_, ?_, ?_⟩
      · dsimp only; rw [herase]; omega
      · dsimp only; rw [herase]; omega
      · unfold Buffer.curLine; dsimp only
        rw [getD_eraseIdx_of_lt _ _ _ _ (by omega),
            getD_set_self _ _ _ _ (by omega)]
        simp
    · rw [if_neg hy]
      exact ⟨h1, h2, h3⟩

theorem valid_delete_char_at_cursor (b : Buffer) (h : b.Valid) :
    b.delete_char_at_cursor_raw.Valid := by
  obtain ⟨h1, h2, h3⟩ := h
  unfold Buffer.curLine at h3
  unfold Buffer.delete_char_at_cursor_raw Buffer.curLine
  by_cases hx : b.cursor_x < (b.lines.getD b.cursor_y []).length
  · rw [if_pos hx]
    refine ⟨?_, ?_, ?_⟩
    · dsimp only; rw [List.length_set]; omega
    · dsimp only; rw [List.length_set]; omega
    · unfold Buffer.curLine; dsimp only
      rw [getD_set_self _ _ _ _ h2]
      simp only [List.length_append, length_pySliceTo, length_pySliceFrom]
      omega
  · rw [if_neg hx]
    by_cases hy : b.cursor_y < b.lines.length - 1
    · rw [if_pos hy]
      have herase : ((b.lines.set b.cursor_y
          (b.lines.getD b.cursor_y [] ++ b.lines.getD (b.cursor_y + 1) [])).eraseIdx
            (b.cursor_y + 1)).length = b.lines.length - 1 := by
        rw [List.length_eraseIdx_of_lt (by rw [List.length_set]; omega), List.length_set]
      refine ⟨?_, ?_, ?_⟩
      · dsimp only; rw [herase]; omega
      · dsimp only; rw [herase]; omega
      · unfold Buffer.curLine; dsimp only
        rw [getD_eraseIdx_of_lt _ _ _ _ (by omega),
            getD_set_self _ _ _ _ h2]
        simp only [List.length_append]
        omega
    · rw [if_neg hy]
      exact ⟨h1, h2, h3⟩

theorem valid_insert_line (b : Buffer) (below : Bool) (h : b.Valid) :
    (b.insert_line_raw below).Valid := by
  obtain ⟨h1, h2, h3⟩ := h
  unfold Buffer.insert_line_raw
  cases below
  · rw [if_neg (by simp)]
    have hlen : (b.lines.insertIdx b.cursor_y ([] : Line)).length =
        b.lines.length + 1 := List.length_insertIdx _ _ (by omega)
    refine ⟨?_, ?_, Nat.zero_le _⟩
    · dsimp only; rw [hlen]; omega
    · dsimp only; rw [hlen]; omega
  · rw [if_pos rfl]
    have hlen : (b.lines.insertIdx (b.cursor_y + 1) ([] : Line)).length =
        b.lines.length + 1 := List.length_insertIdx _ _ (by omega)
    refine ⟨?_, ?_, Nat.zero_le _⟩
    · dsimp only; rw [hlen]; omega
    · dsimp only; rw [hlen]; omega

theorem valid_delete_line (b : Buffer) (h : b.Valid) :
    b.delete_line_raw.Valid := by
  obtain ⟨h1, h2, h3⟩ := h
  unfold Buffer.delete_line_raw
  by_cases hgt : b.lines.length > 1
  · rw [if_pos hgt]
    have herase : (b.lines.eraseIdx b.cursor_y).length = b.lines.length - 1 :=
      List.length_eraseIdx_of_lt h2
    refine ⟨?_, ?_, Nat.zero_le _⟩
    · dsimp only; rw [herase]; omega
    · dsimp only; rw [herase]; split <;> omega
  · rw [if_neg hgt]
    refine ⟨?_, ?_, Nat.zero_le _⟩
    · dsimp only; rw [List.length_set]; omega
    · dsimp only; rw [List.length_set]; omega

theorem valid_move_cursor (b : Buffer) (dx dy : Int) (h : b.Valid) :
    (b.move_cursor_raw dx dy).Valid := by
  obtain ⟨h1, h2, h3⟩ := h
  unfold Buffer.move_cursor_raw
  refine ⟨?_, ?_, ?_⟩
  · dsimp only; omega
  · dsimp only; omega
  · unfold Buffer.curLine; dsimp only; omega


theorem valid_delete_range (b : Buffer) (sy sx ey ex : Nat) :
    (b.delete_range_raw sy sx ey ex).Valid := by
  unfold Buffer.delete_range_raw
  exact valid_validate_cursor _

theorem valid_set_content (b : Buffer) (content : Line) :
    (b.set_content_raw content).Valid := by
  unfold Buffer.set_content_raw
  exact valid_validate_cursor _

/-- One step of `applyOp` preserves the buffer invariant. -/
theorem valid_applyOp (s : EditorState) (op : BufOp) (h : s.buf.Valid) :
    (applyOp s op).buf.Valid := by
  cases op <;>
    simp only [applyOp, mutate, save_state] <;>
    first
      | exact valid_insert_char _ _ h
      | exact valid_delete_char _ h
      | exact valid_delete_char_at_cursor _ h
      | exact valid_insert_line _ _ h
      | exact valid_delete_line _ h
      | exact valid_move_cursor _ _ _ h
      | exact valid_delete_range _ _ _ _ _
      | exact valid_set_content _ _

/-- C1: starting from a valid buffer, every sequence of the character-level
buffer operations (`insert_char`, `delete_char`, `delete_char_at_cursor`,
`insert_line`, `delete_line`, `move_cursor`, `delete_range`, `set_content`)
leaves `lines` non-empty and the cursor within
`0 ≤ cursor_y < len(lines)`, `0 ≤ cursor_x ≤ len(lines[cursor_y])`.
Since this holds for every sequence, it holds after each prefix of a
sequence, i.e. after each operation. -/
theorem C1_buffer_invariant (s : EditorState) (ops : List BufOp)
    (h : s.buf.Valid) : (applyOps s ops).buf.Valid := by
  induction ops generalizing s with
  | nil => exact h
  | cons op ops ih => exact ih _ (valid_applyOp s op h)

/-- Witness for C1: a fresh buffer is valid, and a concrete mixed sequence
of all eight operations ends in a valid buffer. -/
theorem C1_buffer_invariant_witness :
    EditorState.init.buf.Valid ∧
    (applyOps EditorState.init
      [.insert_char 'a', .insert_char 'b', .insert_line true, .insert_char 'c',
       .move_cursor (-1) (-1), .delete_char, .delete_char_at_cursor,
       .set_content ['x', '\n', 'y', 'z'], .delete_range 0 1 1 1,
       .delete_line, .delete_char]).buf.Valid :=
  ⟨by decide, C1_buffer_invariant _ _ (by decide)⟩

/-! ## Undo stack behaviour of `save_state` -/

theorem save_state_redo (s : EditorState) (d : String) :
    (save_state s d).redo_stack = [] := rfl

theorem save_state_buf (s : EditorState) (d : String) :
    (save_state s d).buf = s.buf := rfl

theorem save_state_getLast (s : EditorState) (d : String) :
    (save_state s d).undo_stack.getLast? = some (snapshot s.buf d) := by
  unfold save_state
  dsimp only
  split
  · rename_i hlen
    rw [List.length_append] at hlen
    rw [List.drop_append_of_le_length (by simp at hlen ⊢; unfold maxUndoLevels at hlen; omega),
        List.getLast?_concat]
  · exact List.getLast?_concat _

theorem save_state_length (s : EditorState) (d : String) :
    (save_state s d).undo_stack.length =
      if maxUndoLevels < s.undo_stack.length + 1 then s.undo_stack.length
      else s.undo_stack.length + 1 := by
  unfold save_state
  dsimp only
  split
  · rename_i hlen
    simp only [List.length_append, List.length_cons, List.length_nil] at hlen
    rw [if_pos (by omega)]
    simp only [List.length_drop, List.length_append, List.length_cons,
      List.length_nil]
    omega
  · rename_i hlen
    simp only [List.length_append, List.length_cons, List.length_nil] at hlen
    rw [if_neg (by omega)]
    simp

/-- The undo/redo round trip after one mutation performed through `mutate`
(i.e. through any `Buffer` mutator, which calls `save_state` first and then
transforms the buffer): `undo` succeeds and restores the pre-mutation
`lines`/cursor, and `redo` after it succeeds and restores the post-mutation
`lines`/cursor. -/
theorem mutate_undo_redo (s : EditorState) (d : String) (f : Buffer → Buffer) :
    (undo (mutate s d f)).1 = true ∧
    (undo (mutate s d f)).2.buf.lines = s.buf.lines ∧
    (undo (mutate s d f)).2.buf.cursor_x = s.buf.cursor_x ∧
    (undo (mutate s d f)).2.buf.cursor_y = s.buf.cursor_y ∧
    (redo (undo (mutate s d f)).2).1 = true ∧
    (redo (undo (mutate s d f)).2).2.buf.lines = (mutate s d f).buf.lines ∧
    (redo (undo (mutate s d f)).2).2.buf.cursor_x = (mutate s d f).buf.cursor_x ∧
    (redo (undo (mutate s d f)).2).2.buf.cursor_y = (mutate s d f).buf.cursor_y := by
  have hu : (mutate s d f).undo_stack.getLast? = some (snapshot s.buf d) :=
    save_state_getLast s d
  have hr : (mutate s d f).redo_stack = [] := rfl
  unfold undo
  rw [hu, hr]
  unfold redo
  exact ⟨rfl, rfl, rfl, rfl, rfl, rfl, rfl, rfl⟩

/-- The operations of `BufOp` that go through a `save_state`-first mutator
(all except `move_cursor`, which mutates only the cursor). -/
def BufOp.callsSaveState : BufOp → Bool
  | .move_cursor _ _ => false
  | _ => true

/-- C2: for every mutation applied through a mutator that calls
`save_state` first, `undo()` afterwards returns success and restores
`lines` and `cursor` exactly to their pre-mutation values, and `redo()`
after that undo returns success and restores the post-mutation values. -/
theorem C2_undo_redo_round_trip (s : EditorState) (op : BufOp)
    (h : op.callsSaveState = true) :
    (undo (applyOp s op)).1 = true ∧
    (undo (applyOp s op)).2.buf.lines = s.buf.lines ∧
    (undo (applyOp s op)).2.buf.cursor_x = s.buf.cursor_x ∧
    (undo (applyOp s op)).2.buf.cursor_y = s.buf.cursor_y ∧
    (redo (undo (applyOp s op)).2).1 = true ∧
    (redo (undo (applyOp s op)).2).2.buf.lines = (applyOp s op).buf.lines ∧
    (redo (undo (applyOp s op)).2).2.buf.cursor_x = (applyOp s op).buf.cursor_x ∧
    (redo (undo (applyOp s op)).2).2.buf.cursor_y = (applyOp s op).buf.cursor_y := by
  cases op with
  | move_cursor dx dy => simp [BufOp.callsSaveState] at h
  | insert_char c => exact mutate_undo_redo s _ _
  | delete_char => exact mutate_undo_redo s _ _
  | delete_char_at_cursor => exact mutate_undo_redo s _ _
  | insert_line below => exact mutate_undo_redo s _ _
  | delete_line => exact mutate_undo_redo s _ _
  | delete_range sy sx ey ex => exact mutate_undo_redo s _ _
  | set_content content => exact mutate_undo_redo s _ _

/-- Witness for C2, at a concrete state: insert `'x'` into a fresh buffer,
then undo and redo. -/
theorem C2_undo_redo_round_trip_witness :
    (BufOp.insert_char 'x').callsSaveState = true ∧
    ((undo (applyOp EditorState.init (.insert_char 'x'))).1 = true ∧
     (undo (applyOp EditorState.init (.insert_char 'x'))).2.buf.lines =
       EditorState.init.buf.lines ∧
     (undo (applyOp EditorState.init (.insert_char 'x'))).2.buf.cursor_x =
       EditorState.init.buf.cursor_x ∧
     (undo (applyOp EditorState.init (.insert_char 'x'))).2.buf.cursor_y =
       EditorState.init.buf.cursor_y ∧
     (redo (undo (applyOp EditorState.init (.insert_char 'x'))).2).1 = true ∧
     (redo (undo (applyOp EditorState.init (.insert_char 'x'))).2).2.buf.lines =
       (applyOp EditorState.init (.insert_char 'x')).buf.lines ∧
     (redo (undo (applyOp EditorState.init (.insert_char 'x'))).2).2.buf.cursor_x =
       (applyOp EditorState.init (.insert_char 'x')).buf.cursor_x ∧
     (redo (undo (applyOp EditorState.init (.insert_char 'x'))).2).2.buf.cursor_y =
       (applyOp EditorState.init (.insert_char 'x')).buf.cursor_y) :=
  ⟨rfl, C2_undo_redo_round_trip EditorState.init (.insert_char 'x') rfl⟩

/-! ## Backspace/forward-delete edge behaviour (claims C7, C9) -/

theorem delete_char_raw_noop (b : Buffer) (hx : b.cursor_x = 0)
    (hy : b.cursor_y = 0) : b.delete_char_raw = b := by
  unfold Buffer.delete_char_raw
  rw [if_neg (by omega), if_neg (by omega)]

theorem delete_char_at_cursor_raw_noop (b : Buffer)
    (hx : b.cursor_x = b.curLine.length)
    (hy : b.cursor_y = b.lines.length - 1) :
    b.delete_char_at_cursor_raw = b := by
  unfold Buffer.delete_char_at_cursor_raw
  rw [if_neg (by omega), if_neg (by omega)]

/-- C7: backspace at column 0 of row `r > 0` appends row `r` to the end of
row `r−1`, moves the cursor to the former end of row `r−1`, and decreases
the line count by exactly one; forward-delete at the end of the last row is
a no-op on the buffer. -/
theorem C7_backspace_merge (s : EditorState) (hv : s.buf.Valid)
    (hx : s.buf.cursor_x = 0) (hy : 0 < s.buf.cursor_y) :
    (applyOp s .delete_char).buf.lines.length = s.buf.lines.length - 1 ∧
    (applyOp s .delete_char).buf.cursor_y = s.buf.cursor_y - 1 ∧
    (applyOp s .delete_char).buf.cursor_x =
      (s.buf.lines.getD (s.buf.cursor_y - 1) []).length ∧
    (applyOp s .delete_char).buf.lines.getD (s.buf.cursor_y - 1) [] =
      s.buf.lines.getD (s.buf.cursor_y - 1) [] ++
        s.buf.lines.getD s.buf.cursor_y [] ∧
    (∀ t : EditorState, t.buf.cursor_x = t.buf.curLine.length →
      t.buf.cursor_y = t.buf.lines.length - 1 →
      (applyOp t .delete_char_at_cursor).buf = t.buf) := by
  obtain ⟨h1, h2, h3⟩ := hv
  have hbuf : (applyOp s .delete_char).buf = s.buf.delete_char_raw := rfl
  have hds : s.buf.delete_char_raw =
      { s.buf with
        lines := (s.buf.lines.set (s.buf.cursor_y - 1)
          (s.buf.lines.getD (s.buf.cursor_y - 1) [] ++ s.buf.curLine)).eraseIdx
            s.buf.cursor_y,
        cursor_x := (s.buf.lines.getD (s.buf.cursor_y - 1) []).length,
        cursor_y := s.buf.cursor_y - 1,
        modified := true } := by
    unfold Buffer.delete_char_raw
    rw [if_neg (by omega), if_pos hy]
  refine ⟨?_, ?_, ?_, ?_, ?_⟩
  · rw [hbuf, hds]
    dsimp only
    rw [List.length_eraseIdx_of_lt (by rw [List.length_set]; omega),
        List.length_set]
  · rw [hbuf, hds]
  · rw [hbuf, hds]
  · rw [hbuf, hds]
    dsimp only
    rw [getD_eraseIdx_of_lt _ _ _ _ (by omega),
        getD_set_self _ _ _ _ (by omega)]
    unfold Buffer.curLine
    rfl
  · intro t htx hty
    have : (applyOp t .delete_char_at_cursor).buf =
        t.buf.delete_char_at_cursor_raw := rfl
    rw [this, delete_char_at_cursor_raw_noop t.buf htx hty]

/-- The buffer `["ab", "cd"]` with the cursor at column 0 of row 1,
used to witness C7. -/
def c7state : EditorState :=
  { buf := { lines := [['a', 'b'], ['c', 'd']], cursor_x := 0, cursor_y := 1,
             modified := false, line_ending := ['\n'] },
    undo_stack := [], redo_stack := [], last_save_index := -1 }

/-- Witness for C7: backspace at column 0 of row 1 of `["ab", "cd"]`
merges the rows. -/
theorem C7_backspace_merge_witness :
    (c7state.buf.Valid ∧ c7state.buf.cursor_x = 0 ∧
      0 < c7state.buf.cursor_y) ∧
    ((applyOp c7state .delete_char).buf.lines.length =
        c7state.buf.lines.length - 1 ∧
      (applyOp c7state .delete_char).buf.cursor_y =
        c7state.buf.cursor_y - 1 ∧
      (applyOp c7state .delete_char).buf.cursor_x =
        (c7state.buf.lines.getD (c7state.buf.cursor_y - 1) []).length ∧
      (applyOp c7state .delete_char).buf.lines.getD
          (c7state.buf.cursor_y - 1) [] =
        c7state.buf.lines.getD (c7state.buf.cursor_y - 1) [] ++
          c7state.buf.lines.getD c7state.buf.cursor_y [] ∧
      (∀ t : EditorState, t.buf.cursor_x = t.buf.curLine.length →
        t.buf.cursor_y = t.buf.lines.length - 1 →
        (applyOp t .delete_char_at_cursor).buf = t.buf)) ∧
    (applyOp c7state .delete_char).buf.lines = [['a', 'b', 'c', 'd']] :=
  ⟨⟨by decide, rfl, by decide⟩,
   C7_backspace_merge c7state (by decide) rfl (by decide),
   by decide⟩

/-- C9: `delete_char` at `(0,0)`, and `delete_char_at_cursor` at the end of
the last line, leave `lines`, `cursor` and `modified` unchanged, yet still
append one snapshot of the (unchanged) buffer to the undo stack and clear
the redo stack — discarding any pending redo history. -/
theorem C9_noop_edit_discards_redo (s : EditorState) :
    (s.buf.cursor_x = 0 → s.buf.cursor_y = 0 →
      (applyOp s .delete_char).buf = s.buf ∧
      (applyOp s .delete_char).redo_stack = [] ∧
      (applyOp s .delete_char).undo_stack.getLast? =
        some (snapshot s.buf "Delete character") ∧
      (applyOp s .delete_char).undo_stack.length =
        (if maxUndoLevels < s.undo_stack.length + 1 then s.undo_stack.length
         else s.undo_stack.length + 1)) ∧
    (s.buf.cursor_x = s.buf.curLine.length →
      s.buf.cursor_y = s.buf.lines.length - 1 →
      (applyOp s .delete_char_at_cursor).buf = s.buf ∧
      (applyOp s .delete_char_at_cursor).redo_stack = [] ∧
      (applyOp s .delete_char_at_cursor).undo_stack.getLast? =
        some (snapshot s.buf "Delete at cursor") ∧
      (applyOp s .delete_char_at_cursor).undo_stack.length =
        (if maxUndoLevels < s.undo_stack.length + 1 then s.undo_stack.length
         else s.undo_stack.length + 1)) := by
  constructor
  · intro hx hy
    refine ⟨?_, rfl, save_state_getLast s _, save_state_length s _⟩
    show s.buf.delete_char_raw = s.buf
    exact delete_char_raw_noop s.buf hx hy
  · intro hx hy
    refine ⟨?_, rfl, save_state_getLast s _, save_state_length s _⟩
    show s.buf.delete_char_at_cursor_raw = s.buf
    exact delete_char_at_cursor_raw_noop s.buf hx hy

/-- A state with one pending redo entry, used to witness C9. -/
def pendingRedoState : EditorState :=
  { buf := Buffer.init, undo_stack := [],
    redo_stack := [snapshot { Buffer.init with lines := [['a']] } ""],
    last_save_index := -1 }

/-- Witness for C9: at `pendingRedoState` (cursor `(0,0)`, one redo entry
pending), `delete_char` changes nothing in the buffer but empties the redo
stack and pushes one snapshot. -/
theorem C9_noop_edit_discards_redo_witness :
    (pendingRedoState.buf.cursor_x = 0 ∧ pendingRedoState.buf.cursor_y = 0 ∧
     pendingRedoState.redo_stack ≠ []) ∧
    ((applyOp pendingRedoState .delete_char).buf = pendingRedoState.buf ∧
     (applyOp pendingRedoState .delete_char).redo_stack = [] ∧
     (applyOp pendingRedoState .delete_char).undo_stack.getLast? =
       some (snapshot pendingRedoState.buf "Delete character") ∧
     (applyOp pendingRedoState .delete_char).undo_stack.length =
       (if maxUndoLevels < pendingRedoState.undo_stack.length + 1 then
          pendingRedoState.undo_stack.length
        else pendingRedoState.undo_stack.length + 1)) :=
  ⟨⟨rfl, rfl, by decide⟩,
   (C9_noop_edit_discards_redo pendingRedoState).1 rfl rfl⟩

/-! ## The `is_modified` defect (claim C4) -/

/-- C4: the claim says `is_modified()` called right after
`mark_save_point()` terminates normally and returns `false` by comparing
stack depths.  The code instead evaluates `len(self.max_undo_levels) - 1`
— `len` of the *integer* history cap — which raises `TypeError`, for every
state and in particular immediately after `mark_save_point`. -/
theorem C4_is_modified_raises (s : EditorState) :
    is_modified (mark_save_point s) = PyResult.typeError ∧
    is_modified s = PyResult.typeError :=
  ⟨rfl, rfl⟩

/-- Witness for C4 is not required (no hypotheses), but the defect at a
fully concrete input: a fresh editor after `mark_save_point`. -/
theorem C4_is_modified_raises_concrete :
    is_modified (mark_save_point EditorState.init) = PyResult.typeError := rfl

/-! ## Search engine (`pyvim/search.py`)

The source hands patterns to the host regex engine; in the default
literal path (`use_regex = False`, `whole_word = False`) the pattern is
`re.escape`d first, so matching is literal substring matching, case-folded
when `re.IGNORECASE` was set.  We model that literal path for non-empty
patterns (the source refuses an empty pattern before compiling), with
ASCII case folding for `IGNORECASE`. -/

/-- `SearchMatch` (search.py:8-14); `stop` is the Python field `end`
(the matched text is recoverable as the slice, so it is not stored). -/
structure Match where
  line : Nat
  start : Nat
  stop : Nat
deriving Repr, DecidableEq

/-- Case folding used to model `re.IGNORECASE` (ASCII lower-casing). -/
def foldCase (ic : Bool) (c : Char) : Char := if ic then c.toLower else c

/-- Does the (escaped, hence literal) pattern match at position `i`? -/
def matchesAt (ic : Bool) (pat line : Line) (i : Nat) : Bool :=
  decide ((pat.map (foldCase ic)) <+: ((line.drop i).map (foldCase ic)))

/-- `regex.finditer(line)` for a literal pattern: scan left to right,
yielding non-overlapping `(start, end)` pairs, resuming after each match.
Fuelled by the line length (sufficient for non-empty patterns). -/
def lineMatchesAux (ic : Bool) (pat line : Line) : Nat → Nat → List (Nat × Nat)
  | 0, _ => []
  | fuel + 1, i =>
    if matchesAt ic pat line i then
      (i, i + pat.length) :: lineMatchesAux ic pat line fuel (i + pat.length)
    else if i < line.length then
      lineMatchesAux ic pat line fuel (i + 1)
    else []

/-- All matches of the pattern in one line, in order of position. -/
def lineMatches (ic : Bool) (pat line : Line) : List (Nat × Nat) :=
  lineMatchesAux ic pat line (line.length + 1) 0

/-- The match set built by `SearchEngine.search` (search.py:64-73):
`for line_num, line in enumerate(lines): for match in finditer: append`. -/
def allMatchesFrom (ic : Bool) (pat : Line) : Nat → List Line → List Match
  | _, [] => []
  | y, line :: rest =>
    (lineMatches ic pat line).map (fun m => ⟨y, m.1, m.2⟩) ++
      allMatchesFrom ic pat (y + 1) rest

/-- The full match set over the buffer, in document order. -/
def allMatches (ic : Bool) (pat : Line) (lines : List Line) : List Match :=
  allMatchesFrom ic pat 0 lines

/-- Strict document order on matches. -/
def docLt (a b : Match) : Prop :=
  a.line < b.line ∨ (a.line = b.line ∧ a.start < b.start)

instance (a b : Match) : Decidable (docLt a b) := by
  unfold docLt; infer_instance

/-- The forward-scan condition of search.py:84-85:
`match.line > cursor_y or (match.line == cursor_y and match.start > cursor_x)`. -/
def afterCursor (cy cx : Nat) (m : Match) : Bool :=
  decide (cy < m.line ∨ (m.line = cy ∧ cx < m.start))

/-- The backward-scan condition of search.py:94-95. -/
def beforeCursor (cy cx : Nat) (m : Match) : Bool :=
  decide (m.line < cy ∨ (m.line = cy ∧ m.start < cx))

/-- The for/break/else loop of search.py:82-90: index of the first match
strictly after the cursor, wrapping to 0. -/
def selectForward (ms : List Match) (cy cx : Nat) : Nat :=
  match ms.findIdx? (afterCursor cy cx) with
  | some i => i
  | none => 0

/-- The reverse for/break/else loop of search.py:91-100: index of the last
match strictly before the cursor, wrapping to the last index. -/
def selectBackward (ms : List Match) (cy cx : Nat) : Nat :=
  match ms.reverse.findIdx? (beforeCursor cy cx) with
  | some j => ms.length - 1 - j
  | none => ms.length - 1

/-- The engine state of `SearchEngine.__init__` (search.py:20-30) relevant
to the claims (`search_history`, `replace_history`, `use_regex` and
`whole_word` have no bearing on them; the modelled path is the default
`use_regex = False`, `whole_word = False`).  `matchList` is the Python
field `matches` (that name is reserved in Lean). -/
structure SearchEngine where
  case_sensitive : Bool
  last_search : Option Line
  matchList : List Match
  current_match_index : Int
deriving Repr, DecidableEq

/-- Fresh engine: `case_sensitive = False`, no matches, index `-1`. -/
def SearchEngine.init : SearchEngine :=
  { case_sensitive := false, last_search := none, matchList := [],
    current_match_index := -1 }

/-- `SearchEngine.search` (search.py:32-108).  `forward = true` models
`direction == "forward"`.  Returns the updated engine and the reported
`(line, start)` of the active match. -/
def SearchEngine.search (e : SearchEngine) (lines : List Line) (cy cx : Nat)
    (pat : Line) (forward : Bool) (from_cursor : Bool) :
    SearchEngine × Option (Nat × Nat) :=
  let pat := if pat = [] then e.last_search.getD [] else pat
  if pat = [] then (e, none)
  else
    let ms := allMatches (!e.case_sensitive) pat lines
    let e1 := { e with last_search := some pat, matchList := ms }
    if ms = [] then (e1, none)
    else
      let idx :=
        if from_cursor then
          if forward then selectForward ms cy cx else selectBackward ms cy cx
        else
          if forward then 0 else ms.length - 1
      let m := ms.getD idx ⟨0, 0, 0⟩
      ({ e1 with current_match_index := (idx : Int) }, some (m.line, m.start))

/-- `SearchEngine.find_next` (search.py:110-117): advance the active index
modulo the match count; with an empty match set, fall back to re-running
`search` with the last pattern. -/
def SearchEngine.find_next (e : SearchEngine) (lines : List Line)
    (cy cx : Nat) : SearchEngine × Option (Nat × Nat) :=
  if e.matchList = [] then
    e.search lines cy cx (e.last_search.getD []) true true
  else
    let idx := (e.current_match_index + 1) % (e.matchList.length : Int)
    let m := e.matchList.getD idx.toNat ⟨0, 0, 0⟩
    ({ e with current_match_index := idx }, some (m.line, m.start))

/-- `regex_flags` computation of `SearchEngine.replace` (search.py:136-141):
`IGNORECASE` is set iff `'i'` is in the flags string **or** the engine's
`case_sensitive` is false. -/
def replaceIgnoreCase (case_sensitive : Bool) (flags : Line) : Bool :=
  flags.contains 'i' || !case_sensitive

/-- One line of `regex.subn(replacement, line)` (global) or
`regex.sub(replacement, line, count=1)` (first occurrence), for a literal
pattern: leftmost non-overlapping replacement with its count.  Fuelled by
the line length (sufficient for non-empty patterns). -/
def replaceInLineAux (ic globalFlag : Bool) (pat rep : Line) :
    Nat → Line → Line × Nat
  | 0, s => (s, 0)
  | fuel + 1, s =>
    if matchesAt ic pat s 0 ∧ pat ≠ [] then
      if globalFlag then
        let r := replaceInLineAux ic globalFlag pat rep fuel (s.drop pat.length)
        (rep ++ r.1, r.2 + 1)
      else (rep ++ s.drop pat.length, 1)
    else
      match s with
      | [] => ([], 0)
      | c :: t =>
        let r := replaceInLineAux ic globalFlag pat rep fuel t
        (c :: r.1, r.2)

/-- Replacement applied to one full line. -/
def replaceInLine (ic globalFlag : Bool) (pat rep line : Line) : Line × Nat :=
  replaceInLineAux ic globalFlag pat rep (line.length + 1) line

/-- `SearchEngine.replace` (search.py:128-170), for the engine's
`case_sensitive` flag `cs`, modelled for non-empty patterns and replacement
strings free of regex metacharacters.  Parses the flags, compiles with
`IGNORECASE` per `replaceIgnoreCase`, rewrites each line (all occurrences
with `'g'`, else the first occurrence per line), sets `modified` iff at
least one substitution happened, and returns the count.  Note that it
mutates `buffer.lines` directly: no `save_state`, no undo-stack change. -/
def SearchEngine.replace (cs : Bool) (s : EditorState) (pat rep flags : Line) :
    EditorState × Nat :=
  let globalReplace := flags.contains 'g'
  let ic := replaceIgnoreCase cs flags
  let results := s.buf.lines.map (replaceInLine ic globalReplace pat rep)
  let count := (results.map Prod.snd).sum
  ({ s with
     buf := { s.buf with
       lines := results.map Prod.fst,
       modified := if 0 < count then true else s.buf.modified } },
   count)

/-! ## Search selection: supporting lemmas -/

theorem getD_eq_getElem {α : Type} (l : List α) (d : α) (i : Nat)
    (h : i < l.length) : l.getD i d = l[i] := by
  rw [List.getD_eq_getElem?_getD, List.getElem?_eq_getElem h]
  rfl

theorem findIdx?_cons_eq {α : Type} (p : α → Bool) (a : α) (l : List α) :
    (a :: l).findIdx? p = if p a then some 0 else (l.findIdx? p).map (· + 1) := by
  simp [List.findIdx?_cons]

theorem findIdx?_some_spec {α : Type} (d : α) (p : α → Bool) :
    ∀ (l : List α) (i : Nat), l.findIdx? p = some i →
      i < l.length ∧ p (l.getD i d) = true ∧
        ∀ j, j < i → p (l.getD j d) = false := by
  intro l
  induction l with
  | nil => intro i h; simp at h
  | cons a t ih =>
    intro i h
    rw [findIdx?_cons_eq] at h
    by_cases hpa : p a = true
    · rw [if_pos hpa] at h
      injection h with h
      subst h
      exact ⟨Nat.succ_pos _, by simpa using hpa,
        fun j hj => absurd hj (Nat.not_lt_zero j)⟩
    · rw [if_neg hpa] at h
      obtain ⟨i', hi', rfl⟩ := Option.map_eq_some'.mp h
      obtain ⟨h1, h2, h3⟩ := ih i' hi'
      refine ⟨by simp; omega, by simpa [List.getD_cons_succ] using h2, ?_⟩
      intro j hj
      cases j with
      | zero =>
        simp only [List.getD_cons_zero]
        simp at hpa
        exact hpa
      | succ j => simpa [List.getD_cons_succ] using h3 j (by omega)

theorem findIdx?_none_spec {α : Type} (p : α → Bool) :
    ∀ l : List α, l.findIdx? p = none → ∀ a ∈ l, p a = false := by
  intro l
  induction l with
  | nil => simp
  | cons a t ih =>
    intro h b hb
    rw [findIdx?_cons_eq] at h
    by_cases hpa : p a = true
    · rw [if_pos hpa] at h; cases h
    · rw [if_neg hpa] at h
      simp only [Option.map_eq_none'] at h
      rcases List.mem_cons.mp hb with rfl | hb'
      · simp at hpa; exact hpa
      · exact ih h b hb'

theorem docLt_asymm {a b : Match} (h1 : docLt a b) (h2 : docLt b a) : False := by
  unfold docLt at *; omega

theorem lineMatchesAux_start_ge (ic : Bool) (pat line : Line) :
    ∀ (fuel i : Nat), ∀ m ∈ lineMatchesAux ic pat line fuel i, i ≤ m.1 := by
  intro fuel
  induction fuel with
  | zero => intro i m hm; simp [lineMatchesAux] at hm
  | succ fuel ih =>
    intro i m hm
    unfold lineMatchesAux at hm
    split at hm
    · rcases List.mem_cons.mp hm with rfl | hm'
      · exact Nat.le_refl i
      · exact Nat.le_trans (Nat.le_add_right i pat.length) (ih (i + pat.length) m hm')
    · split at hm
      · exact Nat.le_trans (Nat.le_succ i) (ih (i + 1) m hm)
      · simp at hm

theorem lineMatchesAux_pairwise (ic : Bool) (pat line : Line) (hp : pat ≠ []) :
    ∀ (fuel i : Nat),
      List.Pairwise (fun a b => a.1 < b.1) (lineMatchesAux ic pat line fuel i) := by
  intro fuel
  induction fuel with
  | zero => intro i; simp [lineMatchesAux]
  | succ fuel ih =>
    intro i
    unfold lineMatchesAux
    split
    · refine List.Pairwise.cons ?_ (ih _)
      intro m hm
      have hge := lineMatchesAux_start_ge ic pat line fuel (i + pat.length) m hm
      have hlen : 0 < pat.length := List.length_pos.mpr hp
      show i < m.1
      omega
    · split
      · exact ih _
      · exact List.Pairwise.nil

theorem allMatchesFrom_line_ge (ic : Bool) (pat : Line) :
    ∀ (ls : List Line) (y : Nat), ∀ m ∈ allMatchesFrom ic pat y ls, y ≤ m.line := by
  intro ls
  induction ls with
  | nil => intro y m hm; simp [allMatchesFrom] at hm
  | cons line rest ih =>
    intro y m hm
    unfold allMatchesFrom at hm
    rcases List.mem_append.mp hm with h | h
    · obtain ⟨p, _, rfl⟩ := List.mem_map.mp h
      exact Nat.le_refl y
    · exact Nat.le_trans (Nat.le_succ y) (ih (y + 1) m h)

theorem allMatchesFrom_pairwise (ic : Bool) (pat : Line) (hp : pat ≠ []) :
    ∀ (ls : List Line) (y : Nat),
      List.Pairwise docLt (allMatchesFrom ic pat y ls) := by
  intro ls
  induction ls with
  | nil => intro y; simp [allMatchesFrom]
  | cons line rest ih =>
    intro y
    unfold allMatchesFrom
    rw [List.pairwise_append]
    refine ⟨?_, ih (y + 1), ?_⟩
    · refine List.Pairwise.map _ ?_ (lineMatchesAux_pairwise ic pat line hp _ 0)
      intro a b hab
      exact Or.inr ⟨rfl, hab⟩
    · intro a ha b hb
      obtain ⟨p, _, rfl⟩ := List.mem_map.mp ha
      have hge := allMatchesFrom_line_ge ic pat rest (y + 1) b hb
      exact Or.inl (show y < b.line by omega)

/-- The match set of a non-empty pattern is in strict document order. -/
theorem allMatches_pairwise (ic : Bool) (pat : Line) (lines : List Line)
    (hp : pat ≠ []) : List.Pairwise docLt (allMatches ic pat lines) :=
  allMatchesFrom_pairwise ic pat hp lines 0

theorem selectForward_spec (ms : List Match) (cy cx : Nat) (hne : ms ≠ [])
    (hsort : List.Pairwise docLt ms) :
    selectForward ms cy cx < ms.length ∧
    ((∃ m ∈ ms, afterCursor cy cx m = true) →
      afterCursor cy cx (ms.getD (selectForward ms cy cx) ⟨0, 0, 0⟩) = true ∧
      ∀ m ∈ ms, afterCursor cy cx m = true →
        ¬ docLt m (ms.getD (selectForward ms cy cx) ⟨0, 0, 0⟩)) ∧
    ((∀ m ∈ ms, afterCursor cy cx m = false) → selectForward ms cy cx = 0) := by
  unfold selectForward
  cases hfi : ms.findIdx? (afterCursor cy cx) with
  | none =>
    have hnone := findIdx?_none_spec _ ms hfi
    refine ⟨List.length_pos.mpr hne, ?_, fun _ => rfl⟩
    rintro ⟨m, hm, hmt⟩
    exact absurd hmt (by simp [hnone m hm])
  | some i =>
    obtain ⟨h1, h2, h3⟩ := findIdx?_some_spec ⟨0, 0, 0⟩ _ ms i hfi
    refine ⟨h1, ?_, ?_⟩
    · intro _
      refine ⟨h2, ?_⟩
      intro m hm hmt hcontra
      obtain ⟨k, hk, hkm⟩ := List.mem_iff_getElem.mp hm
      rcases Nat.lt_trichotomy k i with hki | hki | hki
      · have hfalse := h3 k hki
        rw [getD_eq_getElem _ _ _ (by omega), hkm] at hfalse
        rw [hfalse] at hmt
        cases hmt
      · subst hki
        have hEq : ms.getD k ⟨0, 0, 0⟩ = m := by
          rw [getD_eq_getElem _ _ _ h1, ← hkm]
        rw [hEq] at hcontra
        exact docLt_asymm hcontra hcontra
      · have hs := List.pairwise_iff_getElem.mp hsort i k h1 hk hki
        rw [hkm] at hs
        have hgi : ms.getD i ⟨0, 0, 0⟩ = ms[i] := getD_eq_getElem _ _ _ h1
        rw [hgi] at hcontra
        exact docLt_asymm hcontra hs
    · intro hall
      have hmem : ms[i] ∈ ms := List.getElem_mem _
      have hfalse := hall _ hmem
      rw [getD_eq_getElem _ _ _ h1] at h2
      rw [hfalse] at h2
      cases h2

theorem selectBackward_spec (ms : List Match) (cy cx : Nat) (hne : ms ≠ [])
    (hsort : List.Pairwise docLt ms) :
    selectBackward ms cy cx < ms.length ∧
    ((∃ m ∈ ms, beforeCursor cy cx m = true) →
      beforeCursor cy cx (ms.getD (selectBackward ms cy cx) ⟨0, 0, 0⟩) = true ∧
      ∀ m ∈ ms, beforeCursor cy cx m = true →
        ¬ docLt (ms.getD (selectBackward ms cy cx) ⟨0, 0, 0⟩) m) ∧
    ((∀ m ∈ ms, beforeCursor cy cx m = false) →
      selectBackward ms cy cx = ms.length - 1) := by
  have hlen : 0 < ms.length := List.length_pos.mpr hne
  have hrev : ∀ k : Nat, k < ms.length →
      ms.reverse.getD k ⟨0, 0, 0⟩ = ms.getD (ms.length - 1 - k) ⟨0, 0, 0⟩ := by
    intro k hk
    rw [List.getD_eq_getElem?_getD, List.getD_eq_getElem?_getD,
        List.getElem?_reverse hk]
  unfold selectBackward
  cases hfi : ms.reverse.findIdx? (beforeCursor cy cx) with
  | none =>
    dsimp only
    have hnone := findIdx?_none_spec _ ms.reverse hfi
    refine ⟨by omega, ?_, fun _ => rfl⟩
    rintro ⟨m, hm, hmt⟩
    exact absurd hmt (by simp [hnone m (List.mem_reverse.mpr hm)])
  | some j =>
    dsimp only
    obtain ⟨h1, h2, h3⟩ := findIdx?_some_spec ⟨0, 0, 0⟩ _ ms.reverse j hfi
    rw [List.length_reverse] at h1
    rw [hrev j h1] at h2
    refine ⟨by omega, ?_, ?_⟩
    · intro _
      refine ⟨h2, ?_⟩
      intro m hm hmt hcontra
      obtain ⟨k, hk, hkm⟩ := List.mem_iff_getElem.mp hm
      rcases Nat.lt_trichotomy k (ms.length - 1 - j) with hks | hks | hks
      · have hs := List.pairwise_iff_getElem.mp hsort k (ms.length - 1 - j)
          hk (by omega) hks
        rw [hkm] at hs
        have hgi : ms.getD (ms.length - 1 - j) ⟨0, 0, 0⟩ = ms[ms.length - 1 - j] :=
          getD_eq_getElem _ _ _ (by omega)
        rw [hgi] at hcontra
        exact docLt_asymm hs hcontra
      · subst hks
        have hEq : ms.getD (ms.length - 1 - j) ⟨0, 0, 0⟩ = m := by
          rw [getD_eq_getElem _ _ _ hk]
          exact hkm
        rw [hEq] at hcontra
        exact docLt_asymm hcontra hcontra
      · have hj' : ms.length - 1 - k < j := by omega
        have hfalse := h3 (ms.length - 1 - k) hj'
        rw [hrev (ms.length - 1 - k) (by omega)] at hfalse
        have hidx : ms.length - 1 - (ms.length - 1 - k) = k := by omega
        rw [hidx, getD_eq_getElem _ _ _ hk, hkm] at hfalse
        rw [hfalse] at hmt
        cases hmt
    · intro hall
      have hmem : ms[ms.length - 1 - j] ∈ ms := List.getElem_mem _
      have hfalse := hall _ hmem
      rw [getD_eq_getElem _ _ _ (by omega)] at h2
      rw [hfalse] at h2
      cases h2

/-- C5: for a buffer with at least one match of a (non-empty, literal-path)
pattern: the match list is in document order; a fresh forward search
selects the first match strictly after the cursor (wrapping to the first
match overall when none follows); a fresh backward search selects the last
match strictly before the cursor (wrapping to the last match overall when
none precedes); `search` reports the `(line, start)` of the selected match;
and `find_next` from the last match wraps the index to 0 and reports the
first match. -/
theorem C5_search_selection (e : SearchEngine) (lines : List Line)
    (cy cx : Nat) (pat : Line) (ms : List Match) (hp : pat ≠ [])
    (hms : ms = allMatches (!e.case_sensitive) pat lines) (hne : ms ≠ []) :
    List.Pairwise docLt ms ∧
    (e.search lines cy cx pat true true).2 =
      some ((ms.getD (selectForward ms cy cx) ⟨0, 0, 0⟩).line,
            (ms.getD (selectForward ms cy cx) ⟨0, 0, 0⟩).start) ∧
    (e.search lines cy cx pat false true).2 =
      some ((ms.getD (selectBackward ms cy cx) ⟨0, 0, 0⟩).line,
            (ms.getD (selectBackward ms cy cx) ⟨0, 0, 0⟩).start) ∧
    ((∃ m ∈ ms, afterCursor cy cx m = true) →
      afterCursor cy cx (ms.getD (selectForward ms cy cx) ⟨0, 0, 0⟩) = true ∧
      ∀ m ∈ ms, afterCursor cy cx m = true →
        ¬ docLt m (ms.getD (selectForward ms cy cx) ⟨0, 0, 0⟩)) ∧
    ((∀ m ∈ ms, afterCursor cy cx m = false) → selectForward ms cy cx = 0) ∧
    ((∃ m ∈ ms, beforeCursor cy cx m = true) →
      beforeCursor cy cx (ms.getD (selectBackward ms cy cx) ⟨0, 0, 0⟩) = true ∧
      ∀ m ∈ ms, beforeCursor cy cx m = true →
        ¬ docLt (ms.getD (selectBackward ms cy cx) ⟨0, 0, 0⟩) m) ∧
    ((∀ m ∈ ms, beforeCursor cy cx m = false) →
      selectBackward ms cy cx = ms.length - 1) ∧
    (∀ e' : SearchEngine, e'.matchList = ms →
      e'.current_match_index = (ms.length : Int) - 1 →
      (e'.find_next lines cy cx).2 =
        some ((ms.getD 0 ⟨0, 0, 0⟩).line, (ms.getD 0 ⟨0, 0, 0⟩).start) ∧
      (e'.find_next lines cy cx).1.current_match_index = 0) := by
  have hsort : List.Pairwise docLt ms := by
    rw [hms]; exact allMatches_pairwise _ _ _ hp
  obtain ⟨hf1, hf2, hf3⟩ := selectForward_spec ms cy cx hne hsort
  obtain ⟨hb1, hb2, hb3⟩ := selectBackward_spec ms cy cx hne hsort
  have hlen : 0 < ms.length := List.length_pos.mpr hne
  have hsearch : ∀ fwd : Bool, (e.search lines cy cx pat fwd true).2 =
      some ((ms.getD (if fwd then selectForward ms cy cx
                      else selectBackward ms cy cx) ⟨0, 0, 0⟩).line,
            (ms.getD (if fwd then selectForward ms cy cx
                      else selectBackward ms cy cx) ⟨0, 0, 0⟩).start) := by
    intro fwd
    unfold SearchEngine.search
    rw [if_neg hp]
    dsimp only
    rw [if_neg hp, ← hms, if_neg hne]
    cases fwd <;> rfl
  refine ⟨hsort, ?_, ?_, hf2, hf3, hb2, hb3, ?_⟩
  · simpa using hsearch true
  · simpa using hsearch false
  · intro e' hml hidx
    unfold SearchEngine.find_next
    rw [hml, if_neg hne, hidx]
    have hmod : ((ms.length : Int) - 1 + 1) % (ms.length : Int) = 0 := by
      have h : ((ms.length : Int) - 1 + 1) = (ms.length : Int) := by ring
      rw [h, Int.emod_self]
    rw [hmod]
    exact ⟨rfl, rfl⟩

/-- Witness for C5: buffer `["abab"]`, pattern `"ab"`, cursor `(0,0)`:
the fresh forward search reports the match at `(0, 2)` (the first match
strictly after the cursor). -/
theorem C5_search_selection_witness :
    (['a', 'b'] : Line) ≠ [] ∧
    allMatches (!SearchEngine.init.case_sensitive) ['a', 'b']
      [['a', 'b', 'a', 'b']] ≠ [] ∧
    (SearchEngine.init.search [['a', 'b', 'a', 'b']] 0 0 ['a', 'b']
      true true).2 = some (0, 2) := by
  refine ⟨by decide, by decide, ?_⟩
  have h := C5_search_selection SearchEngine.init [['a', 'b', 'a', 'b']] 0 0
    ['a', 'b'] (allMatches (!SearchEngine.init.case_sensitive) ['a', 'b']
      [['a', 'b', 'a', 'b']]) (by decide) rfl (by decide)
  rw [h.2.1]
  decide

/-! ## Replace and the undo contract (claims C3, C10) -/

theorem replace_preserves_stacks (cs : Bool) (s : EditorState)
    (pat rep flags : Line) :
    (SearchEngine.replace cs s pat rep flags).1.undo_stack = s.undo_stack ∧
    (SearchEngine.replace cs s pat rep flags).1.redo_stack = s.redo_stack :=
  ⟨rfl, rfl⟩

/-- The editor state used to exhibit C3's failure. -/
def c3state : EditorState :=
  { buf := { lines := [['a', 'b', 'c']], cursor_x := 0, cursor_y := 0,
             modified := false, line_ending := ['\n'] },
    undo_stack := [], redo_stack := [], last_save_index := -1 }

/-- Counterexample to C3 as stated: `SearchEngine.replace` substitutes
(count 1, the buffer's lines change) yet pushes nothing onto the undo
stack — the lines are modified without a prior snapshot. -/
theorem C3_counterexample_replace_no_snapshot :
    (SearchEngine.replace false c3state ['b'] ['X'] []).1.buf.lines =
      [['a', 'X', 'c']] ∧
    (SearchEngine.replace false c3state ['b'] ['X'] []).2 = 1 ∧
    c3state.buf.lines = [['a', 'b', 'c']] ∧
    (SearchEngine.replace false c3state ['b'] ['X'] []).1.undo_stack = [] ∧
    c3state.undo_stack = [] := by
  refine ⟨by decide, by decide, by decide, rfl, rfl⟩

/-- C3 as amended: every `Buffer` mutator of the operation language that
changes `lines` has pushed a snapshot of the pre-mutation `lines`/`cursor`
and cleared the redo stack (because every mutator calls `save_state`
first); `SearchEngine.replace`, by contrast, leaves the undo and redo
stacks untouched even when it substitutes. -/
theorem C3_amended_save_state_contract (s : EditorState) (op : BufOp)
    (hchanged : (applyOp s op).buf.lines ≠ s.buf.lines) :
    (applyOp s op).redo_stack = [] ∧
    (∃ d : String,
      (applyOp s op).undo_stack.getLast? = some (snapshot s.buf d)) ∧
    (applyOp s op).undo_stack.length =
      (if maxUndoLevels < s.undo_stack.length + 1 then s.undo_stack.length
       else s.undo_stack.length + 1) ∧
    (∀ (cs : Bool) (t : EditorState) (pat rep flags : Line),
      (SearchEngine.replace cs t pat rep flags).1.undo_stack = t.undo_stack ∧
      (SearchEngine.replace cs t pat rep flags).1.redo_stack = t.redo_stack) := by
  cases op with
  | move_cursor dx dy => exact absurd rfl hchanged
  | insert_char c =>
    exact ⟨rfl, ⟨_, save_state_getLast s _⟩, save_state_length s _,
      fun cs t pat rep flags => ⟨rfl, rfl⟩⟩
  | delete_char =>
    exact ⟨rfl, ⟨_, save_state_getLast s _⟩, save_state_length s _,
      fun cs t pat rep flags => ⟨rfl, rfl⟩⟩
  | delete_char_at_cursor =>
    exact ⟨rfl, ⟨_, save_state_getLast s _⟩, save_state_length s _,
      fun cs t pat rep flags => ⟨rfl, rfl⟩⟩
  | insert_line below =>
    exact ⟨rfl, ⟨_, save_state_getLast s _⟩, save_state_length s _,
      fun cs t pat rep flags => ⟨rfl, rfl⟩⟩
  | delete_line =>
    exact ⟨rfl, ⟨_, save_state_getLast s _⟩, save_state_length s _,
      fun cs t pat rep flags => ⟨rfl, rfl⟩⟩
  | delete_range sy sx ey ex =>
    exact ⟨rfl, ⟨_, save_state_getLast s _⟩, save_state_length s _,
      fun cs t pat rep flags => ⟨rfl, rfl⟩⟩
  | set_content content =>
    exact ⟨rfl, ⟨_, save_state_getLast s _⟩, save_state_length s _,
      fun cs t pat rep flags => ⟨rfl, rfl⟩⟩

/-- Witness for the amended C3: inserting `'x'` into a fresh buffer changes
the lines, and the pre-mutation snapshot sits on top of the undo stack. -/
theorem C3_amended_save_state_contract_witness :
    (applyOp EditorState.init (.insert_char 'x')).buf.lines ≠
      EditorState.init.buf.lines ∧
    ((applyOp EditorState.init (.insert_char 'x')).redo_stack = [] ∧
     (∃ d : String,
       (applyOp EditorState.init (.insert_char 'x')).undo_stack.getLast? =
         some (snapshot EditorState.init.buf d)) ∧
     (applyOp EditorState.init (.insert_char 'x')).undo_stack.length =
       (if maxUndoLevels < EditorState.init.undo_stack.length + 1 then
          EditorState.init.undo_stack.length
        else EditorState.init.undo_stack.length + 1) ∧
     (∀ (cs : Bool) (t : EditorState) (pat rep flags : Line),
       (SearchEngine.replace cs t pat rep flags).1.undo_stack = t.undo_stack ∧
       (SearchEngine.replace cs t pat rep flags).1.redo_stack =
         t.redo_stack)) :=
  ⟨by decide, C3_amended_save_state_contract EditorState.init
    (.insert_char 'x') (by decide)⟩

/-- An editor whose buffer holds the single line `"Abc"`, for C10. -/
def c10state : EditorState :=
  { buf := { lines := [['A', 'b', 'c']], cursor_x := 0, cursor_y := 0,
             modified := false, line_ending := ['\n'] },
    undo_stack := [], redo_stack := [], last_save_index := -1 }

/-- C10: whenever the engine's `case_sensitive` flag is false (its initial
value), `replace` compiles with `IGNORECASE` even when `'i'` is absent from
the flags string — so `replace` behaves exactly as if `'i'` had been
passed — and matching is case-sensitive only when `case_sensitive` is true
and `'i'` is not passed.  Concretely, with `case_sensitive = false` and no
flags, `"a"` replaces the capital `'A'` of `"Abc"`. -/
theorem C10_replace_case_insensitive :
    (∀ flags : Line, replaceIgnoreCase false flags = true) ∧
    (∀ (cs : Bool) (flags : Line),
      replaceIgnoreCase cs flags = false ↔
        cs = true ∧ flags.contains 'i' = false) ∧
    (∀ (s : EditorState) (pat rep flags : Line),
      SearchEngine.replace false s pat rep flags =
        SearchEngine.replace false s pat rep ('i' :: flags)) ∧
    (SearchEngine.replace false c10state ['a'] ['X'] []).1.buf.lines =
      [['X', 'b', 'c']] ∧
    (SearchEngine.replace true c10state ['a'] ['X'] []).1.buf.lines =
      [['A', 'b', 'c']] := by
  refine ⟨?_, ?_, ?_, by decide, by decide⟩
  · intro flags
    simp [replaceIgnoreCase]
  · intro cs flags
    cases cs <;> simp [replaceIgnoreCase]
  · intro s pat rep flags
    unfold SearchEngine.replace
    have hic : replaceIgnoreCase false ('i' :: flags) =
        replaceIgnoreCase false flags := by
      simp [replaceIgnoreCase]
    have hg : ('i' :: flags).contains 'g' = flags.contains 'g' := by
      simp [List.contains_cons]
    rw [hic, hg]

/-! ## Windows and splits (`pyvim/window.py`) -/

/-- `WindowLayout` (window.py:14-20): a screen rectangle. -/
structure WindowLayout where
  x : Int
  y : Int
  width : Int
  height : Int
deriving Repr, DecidableEq

/-- A `Window` (window.py:23-32): its buffer reference (modelled as an
identifier, since only identity matters) and its layout.  The cursor and
scroll-offset fields play no role in the layout claims. -/
structure Window where
  bufferId : Nat
  layout : WindowLayout
deriving Repr, DecidableEq

/-- `WindowManager` (window.py:62-69). -/
structure WindowManager where
  screen_width : Int
  screen_height : Int
  windows : List Window
  active_window_index : Nat
deriving Repr, DecidableEq

/-- `WindowManager.split_window` (window.py:81-120).  `horizontal = true`
models `SplitType.HORIZONTAL`.  Python's `//` is floor division, which for
the positive divisor 2 coincides with Euclidean division `Int.ediv`. -/
def WindowManager.split_window (m : WindowManager) (horizontal : Bool) :
    WindowManager :=
  match m.windows.get? m.active_window_index with
  | none => m
  | some current =>
    if horizontal then
      let new_height := Int.ediv current.layout.height 2
      let current' := { current with layout :=
        { current.layout with height := new_height } }
      let new_window : Window :=
        { bufferId := current.bufferId,
          layout := { x := current.layout.x,
                      y := current.layout.y + new_height,
                      width := current.layout.width,
                      height := m.screen_height - current.layout.y - new_height } }
      let ws := (m.windows.set m.active_window_index current').insertIdx
        (m.active_window_index + 1) new_window
      { m with windows := ws }
    else
      let new_width := Int.ediv current.layout.width 2
      let current' := { current with layout :=
        { current.layout with width := new_width } }
      let new_window : Window :=
        { bufferId := current.bufferId,
          layout := { x := current.layout.x + new_width,
                      y := current.layout.y,
                      width := m.screen_width - current.layout.x - new_width,
                      height := current.layout.height } }
      let ws := (m.windows.set m.active_window_index current').insertIdx
        (m.active_window_index + 1) new_window
      { m with windows := ws }

/-- Point membership in a layout rectangle. -/
def inRect (L : WindowLayout) (i j : Int) : Prop :=
  L.x ≤ i ∧ i < L.x + L.width ∧ L.y ≤ j ∧ j < L.y + L.height

instance (L : WindowLayout) (i j : Int) : Decidable (inRect L i j) := by
  unfold inRect; infer_instance

/-- Two layout rectangles overlap when they share a point. -/
def Overlaps (a b : WindowLayout) : Prop := ∃ i j, inRect a i j ∧ inRect b i j

/-- An 80×24 manager holding one full-screen window, as produced by the
editor's startup path. -/
def wm0 : WindowManager :=
  { screen_width := 80, screen_height := 24,
    windows := [{ bufferId := 0, layout := ⟨0, 0, 80, 24⟩ }],
    active_window_index := 0 }

/-- `wm0` split horizontally twice (the active index stays 0, so the
second split splits the top half again). -/
def wm2 : WindowManager := (wm0.split_window true).split_window true

/-- A dummy window for `getD`. -/
def dummyWindow : Window := { bufferId := 0, layout := ⟨0, 0, 0, 0⟩ }

/-- Counterexample to C6 as stated: after the reachable second horizontal
split, the newly inserted window (index 1) spans rows 6–23 — the remainder
of the *screen*, not of the split rectangle — so it overlaps the bottom
window (index 2, rows 12–23), and the two halves of the split rectangle
(which had height 12) have heights 6 and 18: they do not tile it. -/
theorem C6_counterexample_split_overlap :
    wm2.windows.length = 3 ∧
    ((wm0.split_window true).windows.getD 0 dummyWindow).layout.height = 12 ∧
    (wm2.windows.getD 0 dummyWindow).layout.height = 6 ∧
    (wm2.windows.getD 1 dummyWindow).layout =
      { x := 0, y := 6, width := 80, height := 18 } ∧
    (wm2.windows.getD 2 dummyWindow).layout =
      { x := 0, y := 12, width := 80, height := 12 } ∧
    Overlaps (wm2.windows.getD 1 dummyWindow).layout
      (wm2.windows.getD 2 dummyWindow).layout ∧
    (wm2.windows.getD 0 dummyWindow).layout.height +
      (wm2.windows.getD 1 dummyWindow).layout.height ≠ 12 := by
  refine ⟨by decide, by decide, by decide, by decide, by decide,
    ⟨0, 12, by decide, by decide⟩, by decide⟩

/-- C6 as amended: splitting the active window produces two windows with
non-overlapping rectangles that together tile exactly the rectangle
extending from the split window's origin to the screen edge along the
split axis (equal to the split rectangle only when it already reached the
screen edge); the new window references the same buffer and is inserted
immediately after the active index.  Global pairwise non-overlap of all
windows does not hold (see the counterexample). -/
theorem C6_amended_split_tiling (m : WindowManager) (w : Window)
    (horizontal : Bool)
    (hw : m.windows.get? m.active_window_index = some w)
    (hh : 0 ≤ w.layout.height) (hwd : 0 ≤ w.layout.width)
    (hyb : w.layout.y + w.layout.height ≤ m.screen_height)
    (hxb : w.layout.x + w.layout.width ≤ m.screen_width) :
    (m.split_window horizontal).windows.length = m.windows.length + 1 ∧
    let a := (m.split_window horizontal).windows.getD m.active_window_index
      dummyWindow
    let c := (m.split_window horizontal).windows.getD
      (m.active_window_index + 1) dummyWindow
    c.bufferId = w.bufferId ∧
    ¬ Overlaps a.layout c.layout ∧
    (∀ i j : Int,
      (inRect a.layout i j ∨ inRect c.layout i j) ↔
        inRect (if horizontal then
                  ⟨w.layout.x, w.layout.y, w.layout.width,
                    m.screen_height - w.layout.y⟩
                else
                  ⟨w.layout.x, w.layout.y, m.screen_width - w.layout.x,
                    w.layout.height⟩) i j) := by
  obtain ⟨hidx, hget⟩ := List.get?_eq_some.mp hw
  have hsetlen : ∀ w' : Window,
      (m.windows.set m.active_window_index w').length = m.windows.length :=
    fun w' => List.length_set ..
  have hlen' : ∀ (w' nw : Window),
      ((m.windows.set m.active_window_index w').insertIdx
        (m.active_window_index + 1) nw).length = m.windows.length + 1 :=
    fun w' nw => by
      rw [List.length_insertIdx _ _ (by rw [hsetlen]; omega), hsetlen]
  have hA : ∀ (w' nw : Window),
      ((m.windows.set m.active_window_index w').insertIdx
        (m.active_window_index + 1) nw).getD m.active_window_index
        dummyWindow = w' := fun w' nw => by
    rw [getD_eq_getElem _ _ _ (by rw [hlen']; omega),
        List.getElem_insertIdx_of_lt _ _ _ _ (Nat.lt_succ_self _)
          (by rw [hsetlen]; omega),
        List.getElem_set_self]
  have hC : ∀ (w' nw : Window),
      ((m.windows.set m.active_window_index w').insertIdx
        (m.active_window_index + 1) nw).getD (m.active_window_index + 1)
        dummyWindow = nw := fun w' nw => by
    rw [getD_eq_getElem _ _ _ (by rw [hlen']; omega),
        List.getElem_insertIdx_self _ _ _ (by rw [hsetlen]; omega)]
  have hqh0 : 0 ≤ Int.ediv w.layout.height 2 := Int.ediv_nonneg hh (by norm_num)
  have hqh1 : Int.ediv w.layout.height 2 ≤ w.layout.height :=
    Int.ediv_le_self _ hh
  have hqw0 : 0 ≤ Int.ediv w.layout.width 2 := Int.ediv_nonneg hwd (by norm_num)
  have hqw1 : Int.ediv w.layout.width 2 ≤ w.layout.width :=
    Int.ediv_le_self _ hwd
  unfold WindowManager.split_window
  rw [hw]
  cases horizontal
  · dsimp only
    simp only [if_neg Bool.false_ne_true]
    refine ⟨hlen' _ _, ?_⟩
    rw [hA, hC]
    refine ⟨rfl, ?_, ?_⟩
    · rintro ⟨i, j, hai, hci⟩
      unfold inRect at hai hci
      dsimp only at hai hci
      omega
    · intro i j
      unfold inRect
      dsimp only
      constructor
      · rintro (h | h) <;> omega
      · intro h
        by_cases hsplit : i < w.layout.x + Int.ediv w.layout.width 2
        · exact Or.inl (by omega)
        · exact Or.inr (by omega)
  · dsimp only
    simp only [eq_self_iff_true, if_true]
    refine ⟨hlen' _ _, ?_⟩
    rw [hA, hC]
    refine ⟨rfl, ?_, ?_⟩
    · rintro ⟨i, j, hai, hci⟩
      unfold inRect at hai hci
      dsimp only at hai hci
      omega
    · intro i j
      unfold inRect
      dsimp only
      constructor
      · rintro (h | h) <;> omega
      · intro h
        by_cases hsplit : j < w.layout.y + Int.ediv w.layout.height 2
        · exact Or.inl (by omega)
        · exact Or.inr (by omega)

/-- Witness for the amended C6: the first horizontal split of the
full-screen 80×24 window yields two non-overlapping windows. -/
theorem C6_amended_split_tiling_witness :
    wm0.windows.get? wm0.active_window_index =
      some { bufferId := 0, layout := ⟨0, 0, 80, 24⟩ } ∧
    ¬ Overlaps
        ((wm0.split_window true).windows.getD wm0.active_window_index
          dummyWindow).layout
        ((wm0.split_window true).windows.getD (wm0.active_window_index + 1)
          dummyWindow).layout := by
  refine ⟨rfl, ?_⟩
  have h := C6_amended_split_tiling wm0
    { bufferId := 0, layout := ⟨0, 0, 80, 24⟩ } true rfl
    (by decide) (by decide) (by decide) (by decide)
  have h2 := h.2
  dsimp only at h2
  exact h2.2.1

/-! ## Visual selection (`pyvim/visual.py`) -/

/-- `VisualMode` (visual.py:8-12). -/
inductive VisualMode where
  | character
  | line
  | block
deriving Repr, DecidableEq

/-- `Selection` (visual.py:15-22). -/
structure Selection where
  start_y : Nat
  start_x : Nat
  end_y : Nat
  end_x : Nat
  mode : VisualMode
deriving Repr, DecidableEq

/-- `Selection.normalize` (visual.py:24-32): order the endpoints by
document position. -/
def Selection.normalize (s : Selection) : Selection :=
  if s.end_y < s.start_y ∨ (s.start_y = s.end_y ∧ s.end_x < s.start_x) then
    ⟨s.end_y, s.end_x, s.start_y, s.start_x, s.mode⟩
  else s

/-- Python `range(sy, ey + 1)`. -/
def rowRange (sy ey : Nat) : List Nat := List.range' sy (ey + 1 - sy)

/-- One row's contribution to block-mode extraction (visual.py:124-128):
`line[min_x : min(max_x + 1, len(line))]` when `min_x < len(line)`, the
empty string otherwise. -/
def blockExtractRow (line : Line) (minx maxx : Nat) : Line :=
  if minx < line.length then pySlice line minx (min (maxx + 1) line.length)
  else []

/-- The list `lines` accumulated by `get_selected_text` (visual.py:90-130);
the returned string is these parts joined with newlines. -/
def selectedParts (buf : List Line) (sel : Selection) : List Line :=
  let norm := sel.normalize
  match sel.mode with
  | .line =>
      (rowRange norm.start_y norm.end_y).filterMap fun y =>
        if y < buf.length then some (buf.getD y []) else none
  | .character =>
      if norm.start_y = norm.end_y then
        [pySlice (buf.getD norm.start_y []) norm.start_x (norm.end_x + 1)]
      else
        (pySliceFrom (buf.getD norm.start_y []) norm.start_x ::
          (List.range' (norm.start_y + 1) (norm.end_y - (norm.start_y + 1))).map
            (fun y => buf.getD y [])) ++
          [pySliceTo (buf.getD norm.end_y []) (norm.end_x + 1)]
  | .block =>
      let minx := min norm.start_x norm.end_x
      let maxx := max norm.start_x norm.end_x
      (rowRange norm.start_y norm.end_y).filterMap fun y =>
        if y < buf.length then
          some (blockExtractRow (buf.getD y []) minx maxx)
        else none

/-- `VisualModeHandler.get_selected_text` (visual.py:90-130). -/
def get_selected_text (buf : List Line) (sel : Selection) : Line :=
  List.intercalate ['\n'] (selectedParts buf sel)

/-- One row's block-mode deletion (visual.py:171-174):
`line[:min_x] + line[min(max_x + 1, len(line)):]` when `min_x < len(line)`,
the row unchanged otherwise. -/
def blockDeleteRow (line : Line) (minx maxx : Nat) : Line :=
  if minx < line.length then
    pySliceTo line minx ++ pySliceFrom line (min (maxx + 1) line.length)
  else line

/-- One iteration of the block-deletion loop (visual.py:168-174):
only rows inside the buffer are touched. -/
def blockStep (minx maxx : Nat) (acc : List Line) (y : Nat) : List Line :=
  if y < acc.length then acc.set y (blockDeleteRow (acc.getD y []) minx maxx)
  else acc

/-- The block-mode loop of `delete_selection`. -/
def blockDeleteRows (lines : List Line) (sy ey minx maxx : Nat) : List Line :=
  (rowRange sy ey).foldl (blockStep minx maxx) lines

/-- `VisualModeHandler.delete_selection` (visual.py:132-180), acting on the
buffer (the handler's `clear_selection()` touches only handler state). -/
def delete_selection (b : Buffer) (sel : Selection) : Buffer :=
  let norm := sel.normalize
  match sel.mode with
  | .line =>
      let lines1 := b.lines.take norm.start_y ++ b.lines.drop (norm.end_y + 1)
      let lines2 := if lines1 = [] then [([] : Line)] else lines1
      { b with lines := lines2,
               cursor_y := min norm.start_y (lines2.length - 1),
               cursor_x := 0, modified := true }
  | .character =>
      if norm.start_y = norm.end_y then
        let line := b.lines.getD norm.start_y []
        let newLine := (pySliceTo line norm.start_x ++
          pySliceFrom line (norm.end_x + 1) : Line)
        { b with lines := b.lines.set norm.start_y newLine,
                 cursor_y := norm.start_y, cursor_x := norm.start_x,
                 modified := true }
      else
        let first := pySliceTo (b.lines.getD norm.start_y []) norm.start_x
        let last := pySliceFrom (b.lines.getD norm.end_y []) (norm.end_x + 1)
        let lines1 := b.lines.set norm.start_y (first ++ last)
        let lines2 := (lines1.take (norm.start_y + 1) ++
          lines1.drop (norm.end_y + 1) : List Line)
        { b with lines := lines2, cursor_y := norm.start_y,
                 cursor_x := norm.start_x, modified := true }
  | .block =>
      let minx := min norm.start_x norm.end_x
      let maxx := max norm.start_x norm.end_x
      { b with lines := blockDeleteRows b.lines norm.start_y norm.end_y minx maxx,
               cursor_y := norm.start_y, cursor_x := minx, modified := true }

/-! ### Block-mode safety lemmas (claim C8) -/

theorem blockDeleteRow_length_le (line : Line) (minx maxx : Nat)
    (hmm : minx ≤ maxx) :
    (blockDeleteRow line minx maxx).length ≤ line.length := by
  unfold blockDeleteRow
  split
  · simp only [List.length_append, length_pySliceTo, length_pySliceFrom]
    omega
  · exact Nat.le_refl _

theorem blockDeleteRow_short (line : Line) (minx maxx : Nat)
    (h : line.length ≤ minx) : blockDeleteRow line minx maxx = line := by
  unfold blockDeleteRow
  rw [if_neg (by omega)]

theorem blockExtractRow_short (line : Line) (minx maxx : Nat)
    (h : line.length ≤ minx) : blockExtractRow line minx maxx = [] := by
  unfold blockExtractRow
  rw [if_neg (by omega)]

theorem foldl_blockStep_length (minx maxx : Nat) :
    ∀ (rows : List Nat) (lines : List Line),
      (rows.foldl (blockStep minx maxx) lines).length = lines.length := by
  intro rows
  induction rows with
  | nil => intro lines; rfl
  | cons y rows ih =>
    intro lines
    rw [List.foldl_cons, ih]
    unfold blockStep
    split
    · exact List.length_set ..
    · rfl

theorem foldl_blockStep_getD (minx maxx : Nat) :
    ∀ rows : List Nat, rows.Nodup →
      ∀ (lines : List Line) (y : Nat),
        (rows.foldl (blockStep minx maxx) lines).getD y [] =
          if y ∈ rows ∧ y < lines.length then
            blockDeleteRow (lines.getD y []) minx maxx
          else lines.getD y [] := by
  intro rows
  induction rows with
  | nil => intro _ lines y; simp
  | cons y' rows ih =>
    intro hnd lines y
    obtain ⟨hy', hnd'⟩ := List.nodup_cons.mp hnd
    rw [List.foldl_cons, ih hnd']
    by_cases hyy : y = y'
    · subst hyy
      rw [if_neg (fun hc => hy' hc.1)]
      unfold blockStep
      by_cases hlt : y < lines.length
      · rw [if_pos hlt, if_pos ⟨List.mem_cons_self y rows, hlt⟩]
        exact getD_set_self _ _ _ _ hlt
      · rw [if_neg hlt, if_neg (fun hc => hlt hc.2)]
    · have hlen : (blockStep minx maxx lines y').length = lines.length := by
        unfold blockStep
        split
        · exact List.length_set ..
        · rfl
      have hgd : (blockStep minx maxx lines y').getD y [] = lines.getD y [] := by
        unfold blockStep
        split
        · exact getD_set_of_ne _ _ _ _ _ (fun h => hyy h.symm)
        · rfl
      rw [hlen, hgd]
      simp only [List.mem_cons, hyy, false_or]

theorem filterMap_guard (f : Nat → Line) (n : Nat) :
    ∀ rows : List Nat,
      (rows.filterMap fun y => if y < n then some (f y) else none) =
        (rows.filter fun y => decide (y < n)).map f := by
  intro rows
  induction rows with
  | nil => rfl
  | cons y rows ih =>
    by_cases h : y < n <;>
      simp [List.filterMap_cons, List.filter_cons, h, ih]

theorem nodup_rowRange (sy ey : Nat) : (rowRange sy ey).Nodup := by
  unfold rowRange
  exact List.nodup_range' ..

/-- C8: block-mode extraction and deletion are total and safe on every
buffer, even when a selected row is shorter than the block's column range:
extraction yields exactly one contribution per in-bounds row, a short row
contributing the empty string; deletion keeps the row count, leaves short
rows unchanged, rewrites each selected in-bounds row to
`line[:min_x] + line[min(max_x+1, len(line)):]`, and never lengthens a
row. -/
theorem C8_block_selection_safe (b : Buffer) (sel : Selection)
    (hmode : sel.mode = VisualMode.block) :
    selectedParts b.lines sel =
      ((rowRange sel.normalize.start_y sel.normalize.end_y).filter
        (fun y => decide (y < b.lines.length))).map
        (fun y => blockExtractRow (b.lines.getD y [])
          (min sel.normalize.start_x sel.normalize.end_x)
          (max sel.normalize.start_x sel.normalize.end_x)) ∧
    (selectedParts b.lines sel).length =
      ((rowRange sel.normalize.start_y sel.normalize.end_y).filter
        (fun y => decide (y < b.lines.length))).length ∧
    (∀ line : Line,
      line.length ≤ min sel.normalize.start_x sel.normalize.end_x →
      blockExtractRow line (min sel.normalize.start_x sel.normalize.end_x)
        (max sel.normalize.start_x sel.normalize.end_x) = []) ∧
    (delete_selection b sel).lines.length = b.lines.length ∧
    (∀ y : Nat,
      (delete_selection b sel).lines.getD y [] =
        if y ∈ rowRange sel.normalize.start_y sel.normalize.end_y ∧
            y < b.lines.length then
          blockDeleteRow (b.lines.getD y [])
            (min sel.normalize.start_x sel.normalize.end_x)
            (max sel.normalize.start_x sel.normalize.end_x)
        else b.lines.getD y []) ∧
    (∀ line : Line,
      line.length ≤ min sel.normalize.start_x sel.normalize.end_x →
      blockDeleteRow line (min sel.normalize.start_x sel.normalize.end_x)
        (max sel.normalize.start_x sel.normalize.end_x) = line) ∧
    (∀ y : Nat,
      ((delete_selection b sel).lines.getD y []).length ≤
        (b.lines.getD y []).length) := by
  have hparts : selectedParts b.lines sel =
      (rowRange sel.normalize.start_y sel.normalize.end_y).filterMap
        (fun y => if y < b.lines.length then
          some (blockExtractRow (b.lines.getD y [])
            (min sel.normalize.start_x sel.normalize.end_x)
            (max sel.normalize.start_x sel.normalize.end_x))
        else none) := by
    unfold selectedParts
    rw [hmode]
  have hdel : (delete_selection b sel).lines =
      blockDeleteRows b.lines sel.normalize.start_y sel.normalize.end_y
        (min sel.normalize.start_x sel.normalize.end_x)
        (max sel.normalize.start_x sel.normalize.end_x) := by
    unfold delete_selection
    rw [hmode]
  have hminmax : min sel.normalize.start_x sel.normalize.end_x ≤
      max sel.normalize.start_x sel.normalize.end_x :=
    le_trans (Nat.min_le_left _ _) (Nat.le_max_left _ _)
  have hmap := filterMap_guard
    (fun y => blockExtractRow (b.lines.getD y [])
      (min sel.normalize.start_x sel.normalize.end_x)
      (max sel.normalize.start_x sel.normalize.end_x)) b.lines.length
    (rowRange sel.normalize.start_y sel.normalize.end_y)
  have hgd := foldl_blockStep_getD
    (min sel.normalize.start_x sel.normalize.end_x)
    (max sel.normalize.start_x sel.normalize.end_x)
    (rowRange sel.normalize.start_y sel.normalize.end_y)
    (nodup_rowRange _ _) b.lines
  refine ⟨?_, ?_, ?_, ?_, ?_, ?_, ?_⟩
  · rw [hparts, hmap]
  · rw [hparts, hmap, List.length_map]
  · intro line h
    exact blockExtractRow_short line _ _ h
  · rw [hdel]
    exact foldl_blockStep_length _ _ _ _
  · intro y
    rw [hdel]
    exact hgd y
  · intro line h
    exact blockDeleteRow_short line _ _ h
  · intro y
    rw [hdel]
    unfold blockDeleteRows
    rw [hgd y]
    split
    · exact blockDeleteRow_length_le _ _ _ hminmax
    · exact Nat.le_refl _

/-- Witness for C8: buffer `["abcd", "x", "", "wxyz"]` with a block
selection over rows 0–3, columns 1–2 — rows 1 and 2 are shorter than the
block — extraction and deletion at a fully concrete input. -/
theorem C8_block_selection_safe_witness :
    ({ start_y := 0, start_x := 1, end_y := 3, end_x := 2,
       mode := .block : Selection }).mode = VisualMode.block ∧
    selectedParts [['a', 'b', 'c', 'd'], ['x'], [], ['w', 'x', 'y', 'z']]
      { start_y := 0, start_x := 1, end_y := 3, end_x := 2,
        mode := .block } = [['b', 'c'], [], [], ['x', 'y']] ∧
    (delete_selection
      { lines := [['a', 'b', 'c', 'd'], ['x'], [], ['w', 'x', 'y', 'z']],
        cursor_x := 0, cursor_y := 0, modified := false,
        line_ending := ['\n'] }
      { start_y := 0, start_x := 1, end_y := 3, end_x := 2,
        mode := .block }).lines = [['a', 'd'], ['x'], [], ['w', 'z']] ∧
    ((delete_selection
      { lines := [['a', 'b', 'c', 'd'], ['x'], [], ['w', 'x', 'y', 'z']],
        cursor_x := 0, cursor_y := 0, modified := false,
        line_ending := ['\n'] }
      { start_y := 0, start_x := 1, end_y := 3, end_x := 2,
        mode := .block }).lines.getD 1 []).length ≤
      (([['a', 'b', 'c', 'd'], ['x'], [], ['w', 'x', 'y', 'z']] :
        List Line).getD 1 []).length := by
  refine ⟨rfl, by decide, by decide, ?_⟩
  exact (C8_block_selection_safe
    { lines := [['a', 'b', 'c', 'd'], ['x'], [], ['w', 'x', 'y', 'z']],
      cursor_x := 0, cursor_y := 0, modified := false,
      line_ending := ['\n'] }
    { start_y := 0, start_x := 1, end_y := 3, end_x := 2, mode := .block }
    rfl).2.2.2.2.2.2 1

end PyVim
